import Mathlib

/-!
Shallow embedding of the actor message-queue substrate and the ATM state
machine of `src/queue.hpp` (namespace `messaging`).

Modelling conventions:
* A queue (`std::queue<std::shared_ptr<message_base>>`) is a `List Msg`
  with the head of the list as the front of the queue.
* `wrapped_message<T>` type-erases a payload behind `message_base`; since
  the set of message shapes used by the program is closed, the carrier is
  modelled as the inductive `Msg` whose constructor is the shape tag and
  whose constructor fields are the payload.  The `dynamic_cast` shape
  probe of the dispatchers is modelled by comparing `Msg.shape` tags,
  which is exactly what `dynamic_cast<wrapped_message<T>*>` decides for
  this closed hierarchy.
* `std::string` fields that are only copied around (`account`) are
  `String`; the PIN, which is manipulated character by character
  (`+= digit`, `pop_back`, `length`), is a `List Char`.
* Handlers are C++ lambdas returning `void` with side effects; generically
  they are modelled as functions `Msg → α` where `α` stands for the
  handler's effect, and for the ATM concretely as state updates paired
  with the list of messages sent to the bank and interface senders.
* The `sender` fields (`atm_queue` reply handles) embedded in `withdraw`,
  `verify_pin` and `get_balance` are opaque queue handles, not data; they
  are omitted from the payloads.
-/

namespace Messaging

/-- Shape tags: one per message struct of `src/queue.hpp` (the
`dynamic_cast` target types). -/
inductive Shape where
  | close_queue
  | withdraw
  | withdraw_ok
  | withdraw_denied
  | cancel_withdrawal
  | withdrawal_processed
  | card_inserted
  | digit_pressed
  | clear_last_pressed
  | eject_card
  | withdraw_pressed
  | cancel_pressed
  | issue_money
  | verify_pin
  | pin_verified
  | pin_incorrect
  | display_enter_pin
  | display_enter_card
  | display_insufficient_funds
  | display_withdrawal_cancelled
  | display_pin_incorrect_message
  | display_withdrawal_options
  | get_balance
  | balance
  | display_balance
  | balance_pressed
  deriving DecidableEq

/-- A message in flight: shape tag plus payload fields, modelling
`wrapped_message<T>` for each message struct `T` of `src/queue.hpp`. -/
inductive Msg where
  | close_queue
  | withdraw (account : String) (amount : Nat)
  | withdraw_ok
  | withdraw_denied
  | cancel_withdrawal (account : String) (amount : Nat)
  | withdrawal_processed (account : String) (amount : Nat)
  | card_inserted (account : String)
  | digit_pressed (digit : Char)
  | clear_last_pressed
  | eject_card
  | withdraw_pressed (amount : Nat)
  | cancel_pressed
  | issue_money (amount : Nat)
  | verify_pin (account : String) (pin : List Char)
  | pin_verified
  | pin_incorrect
  | display_enter_pin
  | display_enter_card
  | display_insufficient_funds
  | display_withdrawal_cancelled
  | display_pin_incorrect_message
  | display_withdrawal_options
  | get_balance (account : String)
  | balance (amount : Nat)
  | display_balance (amount : Nat)
  | balance_pressed
  deriving DecidableEq

/-- The shape tag of a message: which `wrapped_message<T>` instantiation
carries it (what `dynamic_cast` can discover). -/
def Msg.shape : Msg → Shape
  | .close_queue => .close_queue
  | .withdraw _ _ => .withdraw
  | .withdraw_ok => .withdraw_ok
  | .withdraw_denied => .withdraw_denied
  | .cancel_withdrawal _ _ => .cancel_withdrawal
  | .withdrawal_processed _ _ => .withdrawal_processed
  | .card_inserted _ => .card_inserted
  | .digit_pressed _ => .digit_pressed
  | .clear_last_pressed => .clear_last_pressed
  | .eject_card => .eject_card
  | .withdraw_pressed _ => .withdraw_pressed
  | .cancel_pressed => .cancel_pressed
  | .issue_money _ => .issue_money
  | .verify_pin _ _ => .verify_pin
  | .pin_verified => .pin_verified
  | .pin_incorrect => .pin_incorrect
  | .display_enter_pin => .display_enter_pin
  | .display_enter_card => .display_enter_card
  | .display_insufficient_funds => .display_insufficient_funds
  | .display_withdrawal_cancelled => .display_withdrawal_cancelled
  | .display_pin_incorrect_message => .display_pin_incorrect_message
  | .display_withdrawal_options => .display_withdrawal_options
  | .get_balance _ => .get_balance
  | .balance _ => .balance
  | .display_balance _ => .display_balance
  | .balance_pressed => .balance_pressed

/-- `queue::push` (src/queue.hpp:37-43): append the message at the tail. -/
def queue.push (q : List Msg) (msg : Msg) : List Msg :=
  q ++ [msg]

/-- `queue::wait_and_pop` (src/queue.hpp:45-57): block until non-empty,
then remove and return the head.  `none` models "still blocked" (the queue
is empty and no producer exists in the model). -/
def queue.wait_and_pop (q : List Msg) : Option (Msg × List Msg) :=
  match q with
  | [] => none
  | m :: rest => some (m, rest)

/-- `sender::send` (src/queue.hpp:77-84): push onto the bound queue when
`q_` is non-null, silently drop otherwise.  `bound` models `q_ != nullptr`
and the result is the new contents of the bound queue (unchanged when
unbound). -/
def sender.send (bound : Bool) (q : List Msg) (msg : Msg) : List Msg :=
  if bound then queue.push q msg else q

/-- A dispatcher chain as linked at run time: `base` is the `dispatcher`
returned by `receiver::wait()`, and `link prev s f` is a
`TemplateDispatcher` whose `prev_` is `prev`, whose probed shape is `s`
and whose handler is `f`.  `α` stands for the handler effect. -/
inductive Chain (α : Type) where
  | base
  | link (prev : Chain α) (shape : Shape) (handler : Msg → α)

/-- `dispatcher::handle` / `TemplateDispatcher::handle`
(src/queue.hpp:122-132, 226-231): chain a new `(shape, handler)` link
whose predecessor is the current tail. -/
def Chain.handle {α : Type} (c : Chain α) (s : Shape) (f : Msg → α) : Chain α :=
  .link c s f

/-- The chain built by `receiver.wait().handle<S1>(f1)...handle<Sn>(fn)`:
fold `handle` over the cases in registration order. -/
def Chain.ofList {α : Type} (cs : List (Shape × (Msg → α))) : Chain α :=
  cs.foldl (fun c p => c.handle p.1 p.2) .base

/-- Outcome of a single `dispatch` call on one message:
`handled v` models "a handler ran (returning effect `v`) and `dispatch`
returned `true`"; `closed` models the thrown `close_queue` exception;
`unhandled` models `dispatch` returning `false`. -/
inductive DispatchResult (α : Type) where
  | handled (val : α)
  | closed
  | unhandled
  deriving DecidableEq

/-- `TemplateDispatcher::dispatch` (src/queue.hpp:168-181) together with
the base case `dispatcher::dispatch` (src/queue.hpp:253-260): the tail
probes its own shape first and otherwise chains to `prev_`; the base
dispatcher throws `close_queue` on a close message and returns `false`
on anything else. -/
def Chain.dispatch {α : Type} : Chain α → Msg → DispatchResult α
  | .base, m => if m.shape = .close_queue then .closed else .unhandled
  | .link prev s f, m => if m.shape = s then .handled (f m) else prev.dispatch m

/-- Outcome of one receive turn over the (finite) current queue contents:
`handled v rest` — some handler ran with effect `v`, `rest` is what the
turn left in the queue; `closed rest` — the `close_queue` exception is
propagating; `blocked` — the queue drained with no decision (the real
code would block in `wait_and_pop`). -/
inductive TurnResult (α : Type) where
  | handled (val : α) (rest : List Msg)
  | closed (rest : List Msg)
  | blocked
  deriving DecidableEq

/-- `TemplateDispatcher::wait_and_dispatch` (src/queue.hpp:155-166):
loop `wait_and_pop`; stop as soon as `dispatch` returns `true`; the
`close_queue` throw propagates out of the loop. -/
def Chain.wait_and_dispatch {α : Type} (c : Chain α) : List Msg → TurnResult α
  | [] => .blocked
  | m :: rest =>
    match c.dispatch m with
    | .handled v => .handled v rest
    | .closed => .closed rest
    | .unhandled => c.wait_and_dispatch rest

/-- `dispatcher::wait_and_dispatch` (src/queue.hpp:242-250) of the bare
base dispatcher: `while (true) { dispatch(wait_and_pop()); }` — the
boolean result of `dispatch` is ignored, so the loop exits only through
the `close_queue` throw. -/
def dispatcher.wait_and_dispatch : List Msg → TurnResult Unit
  | [] => .blocked
  | m :: rest =>
    match Chain.dispatch (α := Unit) .base m with
    | .closed => .closed rest
    | _ => dispatcher.wait_and_dispatch rest

/-- `TemplateDispatcher`'s move constructor (src/queue.hpp:100-107):
given the source's `chained_` flag, returns
(destination `chained_`, source `chained_` after the move). -/
def TemplateDispatcher.moveCtor (otherChained : Bool) : Bool × Bool :=
  (otherChained, true)

/-- `dispatcher`'s move constructor (src/queue.hpp:204-210): given the
source's `chained_` flag, returns
(destination `chained_`, source `chained_` after the move).  The body
sets `other.chained_ = false`. -/
def dispatcher.moveCtor (otherChained : Bool) : Bool × Bool :=
  (otherChained, false)

/-- Whether a dispatcher destructor performs the pop-and-dispatch work:
both `~TemplateDispatcher` (src/queue.hpp:134-140) and `~dispatcher`
(src/queue.hpp:217-223) run `wait_and_dispatch()` iff `not chained_`. -/
def destructorDispatches (chained : Bool) : Bool :=
  !chained

/-! ## The ATM state machine (`class atm`, src/queue.hpp:412-609) -/

/-- The seven states: each is a member function body assigned to the
`state_` member-function pointer. -/
inductive AtmState where
  | waiting_for_card
  | getting_pin
  | verifying_pin
  | wait_for_action
  | process_withdrawal
  | process_balance
  | done_processing
  deriving DecidableEq

/-- Target of a `send` performed by an ATM handler: `bank_` or
`interface_hardware_`. -/
inductive Dest where
  | bank
  | interface
  deriving DecidableEq

/-- One message sent by an ATM handler, with its destination sender. -/
structure Sent where
  dest : Dest
  msg : Msg
  deriving DecidableEq

/-- The ATM's mutable data members (src/queue.hpp:592-608): the `state_`
pointer, `account_`, `withdrawal_amount_` and the PIN being entered. -/
structure Atm where
  state_ : AtmState
  account_ : String
  withdrawal_amount_ : Nat
  pin_ : List Char
  deriving DecidableEq

/-- `atm::waiting_for_card`'s handler cases (src/queue.hpp:568-581):
`card_inserted` stores the account, clears the PIN, tells the interface
to ask for the PIN and moves to `getting_pin`.  `none` = shape not
registered on this turn. -/
def atm.waiting_for_card_cases (a : Atm) : Msg → Option (Atm × List Sent)
  | .card_inserted acct =>
    some ({ a with account_ := acct, pin_ := [], state_ := .getting_pin },
      [⟨.interface, .display_enter_pin⟩])
  | _ => none

/-- `atm::getting_pin`'s handler cases (src/queue.hpp:538-566).  The
three registered shapes are disjoint, so matching on the constructor is
equivalent to the chain's tail-first probe order. -/
def atm.getting_pin_cases (a : Atm) : Msg → Option (Atm × List Sent)
  | .digit_pressed d =>
    -- pin_ += msg.digit; if (pin_.length() == 4) { send verify_pin; → verifying_pin }
    let pin := a.pin_ ++ [d]
    if pin.length = 4 then
      some ({ a with pin_ := pin, state_ := .verifying_pin },
        [⟨.bank, .verify_pin a.account_ pin⟩])
    else
      some ({ a with pin_ := pin }, [])
  | .clear_last_pressed =>
    -- if (not pin_.empty()) pin_.pop_back();
    if a.pin_ = [] then some (a, [])
    else some ({ a with pin_ := a.pin_.dropLast }, [])
  | .cancel_pressed =>
    some ({ a with state_ := .done_processing }, [])
  | _ => none

/-- `atm::verifying_pin`'s handler cases (src/queue.hpp:516-536). -/
def atm.verifying_pin_cases (a : Atm) : Msg → Option (Atm × List Sent)
  | .pin_verified =>
    some ({ a with state_ := .wait_for_action }, [])
  | .pin_incorrect =>
    some ({ a with state_ := .done_processing },
      [⟨.interface, .display_pin_incorrect_message⟩])
  | .cancel_pressed =>
    some ({ a with state_ := .done_processing }, [])
  | _ => none

/-- `atm::wait_for_action`'s handler cases (src/queue.hpp:491-514):
`withdraw_pressed` remembers the amount in `withdrawal_amount_` and asks
the bank to withdraw. -/
def atm.wait_for_action_cases (a : Atm) : Msg → Option (Atm × List Sent)
  | .withdraw_pressed amt =>
    some ({ a with withdrawal_amount_ := amt, state_ := .process_withdrawal },
      [⟨.bank, .withdraw a.account_ amt⟩])
  | .balance_pressed =>
    some ({ a with state_ := .process_balance },
      [⟨.bank, .get_balance a.account_⟩])
  | .cancel_pressed =>
    some ({ a with state_ := .done_processing }, [])
  | _ => none

/-- `atm::process_withdrawal`'s handler cases (src/queue.hpp:448-472). -/
def atm.process_withdrawal_cases (a : Atm) : Msg → Option (Atm × List Sent)
  | .withdraw_ok =>
    some ({ a with state_ := .done_processing },
      [⟨.interface, .issue_money a.withdrawal_amount_⟩,
       ⟨.bank, .withdrawal_processed a.account_ a.withdrawal_amount_⟩])
  | .withdraw_denied =>
    some ({ a with state_ := .done_processing },
      [⟨.interface, .display_insufficient_funds⟩])
  | .cancel_pressed =>
    some ({ a with state_ := .done_processing },
      [⟨.bank, .cancel_withdrawal a.account_ a.withdrawal_amount_⟩,
       ⟨.interface, .display_withdrawal_cancelled⟩])
  | _ => none

/-- `atm::process_balance`'s handler cases (src/queue.hpp:474-489). -/
def atm.process_balance_cases (a : Atm) : Msg → Option (Atm × List Sent)
  | .balance amt =>
    some ({ a with state_ := .wait_for_action },
      [⟨.interface, .display_balance amt⟩])
  | .cancel_pressed =>
    some ({ a with state_ := .done_processing }, [])
  | _ => none

/-- The handler cases registered by the current state's receive turn.
`done_processing` performs no receive at all. -/
def atm.cases (a : Atm) (m : Msg) : Option (Atm × List Sent) :=
  match a.state_ with
  | .waiting_for_card => atm.waiting_for_card_cases a m
  | .getting_pin => atm.getting_pin_cases a m
  | .verifying_pin => atm.verifying_pin_cases a m
  | .wait_for_action => atm.wait_for_action_cases a m
  | .process_withdrawal => atm.process_withdrawal_cases a m
  | .process_balance => atm.process_balance_cases a m
  | .done_processing => none

/-- Messages a state function sends before starting its receive turn
(src/queue.hpp:570, 493). -/
def atm.entrySends (a : Atm) : List Sent :=
  match a.state_ with
  | .waiting_for_card => [⟨.interface, .display_enter_card⟩]
  | .wait_for_action => [⟨.interface, .display_withdrawal_options⟩]
  | _ => []

/-- Outcome of one invocation of the current state function `(this->*state_)()`:
`ok` — the function returned normally with the updated ATM, the remaining
queue and the messages sent; `closed` — the dispatcher threw `close_queue`
out of the state function; `blocked` — the queue drained while waiting. -/
inductive StepResult where
  | ok (a : Atm) (q : List Msg) (out : List Sent)
  | closed (q : List Msg) (out : List Sent)
  | blocked (out : List Sent)
  deriving DecidableEq

/-- The receive turn at the heart of every receiving state: pop messages,
try the state's registered cases (tail-first through the chain), fall to
the base dispatcher's close check, and re-pop on an unmatched shape.
Mirrors `Chain.wait_and_dispatch` instantiated with the state's chain. -/
def atm.receiveLoop (a : Atm) (sends : List Sent) : List Msg → StepResult
  | [] => .blocked sends
  | m :: rest =>
    match atm.cases a m with
    | some (a', out) => .ok a' rest (sends ++ out)
    | none =>
      if m = .close_queue then .closed rest sends
      else atm.receiveLoop a sends rest

/-- One invocation of the current state function: `done_processing`
(src/queue.hpp:583-587) sends `eject_card` and moves to
`waiting_for_card` without receiving; every other state performs its
entry sends and then one receive turn. -/
def atm.turn (a : Atm) (q : List Msg) : StepResult :=
  match a.state_ with
  | .done_processing =>
    .ok { a with state_ := .waiting_for_card } q [⟨.interface, .eject_card⟩]
  | _ => atm.receiveLoop a (atm.entrySends a) q

/-- Result of running the ATM loop on a finite queue with fuel:
`terminated` — `close_queue` was thrown and caught by `run`'s handler;
`outOfFuel` — the fuel ran out mid-loop; `blockedRun` — the ATM is
waiting on an empty queue. -/
inductive RunResult where
  | terminated (out : List Sent) (rest : List Msg)
  | outOfFuel (a : Atm) (q : List Msg) (out : List Sent)
  | blockedRun (out : List Sent)
  deriving DecidableEq

/-- The `while (true) { (this->*state_)(); }` loop inside the `try` of
`atm::run` (src/queue.hpp:426-439): iterate state functions; a
`close_queue` throw is caught at top level and terminates the loop. -/
def atm.runAux : Nat → Atm → List Msg → List Sent → RunResult
  | 0, a, q, out => .outOfFuel a q out
  | fuel + 1, a, q, out =>
    match atm.turn a q with
    | .ok a' q' o => atm.runAux fuel a' q' (out ++ o)
    | .closed q' o => .terminated (out ++ o) q'
    | .blocked o => .blockedRun (out ++ o)

/-- `atm::run` (src/queue.hpp:426-439): set `state_` to
`waiting_for_card`, then loop until `close_queue` is caught. -/
def atm.run (a : Atm) (q : List Msg) (fuel : Nat) : RunResult :=
  atm.runAux fuel { a with state_ := .waiting_for_card } q []

/-- `atm::done` (src/queue.hpp:421-424): enqueue `close_queue` on the
ATM's own queue through `get_sender()` (a bound sender for `incoming_`). -/
def atm.done (q : List Msg) : List Msg :=
  sender.send true q .close_queue

/-- The ATM as constructed (src/queue.hpp:415-419) and started by `run`:
default-constructed members (`account_` and `pin_` empty,
`withdrawal_amount_ = 0`) and `state_ = waiting_for_card`. -/
def atm.init : Atm :=
  ⟨.waiting_for_card, "", 0, []⟩

/-- The ATM configurations reachable from the initial one: either by a
registered handler firing on some message, or by the `done_processing`
pure transition.  Unmatched messages leave the configuration unchanged,
so this covers every configuration the run loop can produce. -/
inductive atm.Reachable : Atm → Prop where
  | init : atm.Reachable atm.init
  | handle {a a' : Atm} {m : Msg} {out : List Sent} :
      atm.Reachable a → atm.cases a m = some (a', out) → atm.Reachable a'
  | doneStep {a : Atm} :
      atm.Reachable a → a.state_ = .done_processing →
      atm.Reachable { a with state_ := .waiting_for_card }

/-- Pop `n + 1` times in sequence: the value returned by the
`(n + 1)`-st `wait_and_pop` together with the queue it leaves behind. -/
def queue.popN : Nat → List Msg → Option (Msg × List Msg)
  | 0, q => queue.wait_and_pop q
  | n + 1, q =>
    match queue.wait_and_pop q with
    | none => none
    | some (_, rest) => queue.popN n rest

/-- A message probes as `close_queue` exactly when it is the close
message: `dynamic_cast<wrapped_message<close_queue>*>` succeeds only on
the close carrier. -/
theorem Msg.shape_eq_close_iff (m : Msg) :
    m.shape = Shape.close_queue ↔ m = Msg.close_queue := by
  cases m <;> simp [Msg.shape]

/-- No ATM state registers a handler for `close_queue`, so on every
receive turn the close message falls through to the base dispatcher. -/
theorem atm.cases_close_queue (a : Atm) : atm.cases a Msg.close_queue = none := by
  cases h : a.state_ <;>
    simp [atm.cases, h, atm.waiting_for_card_cases, atm.getting_pin_cases,
      atm.verifying_pin_cases, atm.wait_for_action_cases,
      atm.process_withdrawal_cases, atm.process_balance_cases]

/-- C5: `push` appends at the tail and `wait_and_pop` removes the head,
so if M1 is enqueued before M2 on queue `q`, the pops after draining the
`q.length` earlier messages return M1 first and M2 second: enqueue order
is delivery order. -/
theorem queue.fifo_order (q : List Msg) (m1 m2 : Msg) :
    queue.popN q.length (queue.push (queue.push q m1) m2) = some (m1, [m2]) ∧
    queue.popN (q.length + 1) (queue.push (queue.push q m1) m2) = some (m2, []) := by
  induction q with
  | nil => exact ⟨rfl, rfl⟩
  | cons x xs ih =>
    simpa [queue.push, queue.popN, queue.wait_and_pop] using ih

/-- C4: the move constructors' effect on the `chained_` flags.  The
`TemplateDispatcher` move marks the source chained (inert: its destructor
does not dispatch), but the `dispatcher` move sets the source's
`chained_` to `false`, so the moved-from base dispatcher's destructor
still performs the pop-and-dispatch — contradicting the source comment
"Source dispatcher must not now wait for messages". -/
theorem dispatcher_move_source_active :
    TemplateDispatcher.moveCtor false = (false, true) ∧
    destructorDispatches (TemplateDispatcher.moveCtor false).2 = false ∧
    dispatcher.moveCtor false = (false, false) ∧
    destructorDispatches (dispatcher.moveCtor false).2 = true :=
  ⟨rfl, rfl, rfl, rfl⟩

/-- C10: the bare base dispatcher's `wait_and_dispatch` never completes
normally: it discards every popped non-close message (the consumed prefix
contains no close message) and exits only by throwing `close_queue` when
a close message is popped; on a queue with no close message it is left
waiting. -/
theorem dispatcher.wait_and_dispatch_never_normal (msgs : List Msg) :
    (∀ (v : Unit) (rest : List Msg),
      dispatcher.wait_and_dispatch msgs ≠ .handled v rest) ∧
    (∀ rest, dispatcher.wait_and_dispatch msgs = .closed rest →
      ∃ pre, msgs = pre ++ Msg.close_queue :: rest ∧ Msg.close_queue ∉ pre) ∧
    (dispatcher.wait_and_dispatch msgs = .blocked ↔ Msg.close_queue ∉ msgs) := by
  induction msgs with
  | nil =>
    refine ⟨by simp [dispatcher.wait_and_dispatch], ?_, by simp [dispatcher.wait_and_dispatch]⟩
    intro rest h
    simp [dispatcher.wait_and_dispatch] at h
  | cons m rest ih =>
    by_cases hm : m = Msg.close_queue
    · subst hm
      have hw : dispatcher.wait_and_dispatch (Msg.close_queue :: rest) =
          TurnResult.closed rest := by
        simp [dispatcher.wait_and_dispatch, Chain.dispatch, Msg.shape]
      refine ⟨by simp [hw], ?_, by simp [hw]⟩
      intro rest' h
      rw [hw] at h
      cases h
      exact ⟨[], rfl, by simp⟩
    · have hsh : Msg.shape m ≠ Shape.close_queue := fun h =>
        hm ((Msg.shape_eq_close_iff m).1 h)
      have hw : dispatcher.wait_and_dispatch (m :: rest) =
          dispatcher.wait_and_dispatch rest := by
        simp [dispatcher.wait_and_dispatch, Chain.dispatch, if_neg hsh]
      refine ⟨by rw [hw]; exact ih.1, ?_, ?_⟩
      · intro rest' h
        rw [hw] at h
        obtain ⟨pre, hpre, hnotin⟩ := ih.2.1 rest' h
        refine ⟨m :: pre, by simp [hpre], ?_⟩
        simp only [List.mem_cons, not_or]
        exact ⟨fun h => hm h.symm, hnotin⟩
      · rw [hw, ih.2.2]
        simp only [List.mem_cons, not_or]
        exact ⟨fun h => ⟨fun he => hm he.symm, h⟩, fun h => h.2⟩

/-- C10 witness: on the concrete queue [pin_verified, close, eject_card]
the base turn throws after silently consuming the unmatched prefix. -/
theorem dispatcher.wait_and_dispatch_never_normal_witness :
    ∃ pre, [Msg.pin_verified, Msg.close_queue, Msg.eject_card] =
        pre ++ Msg.close_queue :: [Msg.eject_card] ∧ Msg.close_queue ∉ pre :=
  (dispatcher.wait_and_dispatch_never_normal
    [Msg.pin_verified, Msg.close_queue, Msg.eject_card]).2.1
    [Msg.eject_card] (by decide)

/-- Chaining further `.handle` cases onto a dispatcher and then probing a
message none of the new cases matches falls through to the original
dispatcher. -/
theorem Chain.dispatch_foldl_skip {α : Type} (l : List (Shape × (Msg → α))) (m : Msg)
    (h : ∀ p ∈ l, p.1 ≠ m.shape) (c : Chain α) :
    Chain.dispatch (l.foldl (fun c q => c.handle q.1 q.2) c) m = Chain.dispatch c m := by
  induction l generalizing c with
  | nil => rfl
  | cons p ps ih =>
    have hp : m.shape ≠ p.1 := fun hh => h p (by simp) hh.symm
    rw [List.foldl_cons, ih (fun q hq => h q (List.mem_cons_of_mem _ hq))]
    simp [Chain.handle, Chain.dispatch, hp]

/-- C1: a receive turn silently consumes every popped message that no
registered case handles and that the base policy rejects (`dispatch`
returns `unhandled`), and re-polls; the turn's outcome is decided by the
first message that a case handles or that closes the queue.  Moreover a
turn is left waiting (never ends) exactly when every queued message is
unmatched and not close. -/
theorem Chain.wait_and_dispatch_drops_unmatched {α : Type} :
    (∀ (c : Chain α) (pre : List Msg) (m : Msg) (rest : List Msg),
      (∀ p ∈ pre, c.dispatch p = .unhandled) →
      c.wait_and_dispatch (pre ++ m :: rest) =
        match c.dispatch m with
        | .handled v => .handled v rest
        | .closed => .closed rest
        | .unhandled => c.wait_and_dispatch rest) ∧
    (∀ (c : Chain α) (msgs : List Msg),
      c.wait_and_dispatch msgs = .blocked ↔ ∀ m ∈ msgs, c.dispatch m = .unhandled) := by
  constructor
  · intro c pre
    induction pre with
    | nil =>
      intro m rest _
      cases h : c.dispatch m <;> simp [Chain.wait_and_dispatch, h]
    | cons p ps ih =>
      intro m rest hpre
      have hp : c.dispatch p = .unhandled := hpre p (by simp)
      have hps : ∀ q ∈ ps, c.dispatch q = .unhandled := fun q hq =>
        hpre q (List.mem_cons_of_mem _ hq)
      show Chain.wait_and_dispatch c (p :: (ps ++ m :: rest)) = _
      rw [show Chain.wait_and_dispatch c (p :: (ps ++ m :: rest)) =
          Chain.wait_and_dispatch c (ps ++ m :: rest) by
        simp [Chain.wait_and_dispatch, hp]]
      exact ih m rest hps
  · intro c msgs
    induction msgs with
    | nil => simp [Chain.wait_and_dispatch]
    | cons m rest ih =>
      cases h : c.dispatch m with
      | handled v => simp [Chain.wait_and_dispatch, h]
      | closed => simp [Chain.wait_and_dispatch, h]
      | unhandled => simp [Chain.wait_and_dispatch, h, ih]

/-- C1 witness: a turn registering only `pin_verified` drops the two
unmatched messages ahead of it and handles `pin_verified`, leaving the
rest of the queue untouched. -/
theorem Chain.wait_and_dispatch_drops_unmatched_witness :
    Chain.wait_and_dispatch (Chain.ofList [(Shape.pin_verified, fun _ => (7 : Nat))])
      ([Msg.balance_pressed, Msg.eject_card] ++ Msg.pin_verified :: [Msg.cancel_pressed]) =
      TurnResult.handled 7 [Msg.cancel_pressed] := by
  have h := (@Chain.wait_and_dispatch_drops_unmatched Nat).1
    (Chain.ofList [(Shape.pin_verified, fun _ => (7 : Nat))])
    [Msg.balance_pressed, Msg.eject_card] Msg.pin_verified [Msg.cancel_pressed] (by decide)
  exact h.trans (by decide)

/-- C2: dispatch tries cases tail-first — with cases registered in order
`cs1 ++ [(s, g)] ++ cs2`, a message of shape `s` is handled by `g`
whenever no later-registered case (`cs2`) declares shape `s`, regardless
of any earlier case for the same shape; in particular registering the
same shape twice shadows the earlier handler (second conjunct: the
result is `g`'s, and `f` is never invoked). -/
theorem Chain.dispatch_tail_first {α : Type} :
    (∀ (cs1 cs2 : List (Shape × (Msg → α))) (s : Shape) (g : Msg → α) (m : Msg),
      m.shape = s → (∀ p ∈ cs2, p.1 ≠ s) →
      Chain.dispatch (Chain.ofList (cs1 ++ (s, g) :: cs2)) m = .handled (g m)) ∧
    (∀ (cs : List (Shape × (Msg → α))) (s : Shape) (f g : Msg → α) (m : Msg),
      m.shape = s →
      Chain.dispatch (Chain.ofList (cs ++ [(s, f), (s, g)])) m = .handled (g m)) := by
  have main : ∀ (cs1 cs2 : List (Shape × (Msg → α))) (s : Shape) (g : Msg → α) (m : Msg),
      m.shape = s → (∀ p ∈ cs2, p.1 ≠ s) →
      Chain.dispatch (Chain.ofList (cs1 ++ (s, g) :: cs2)) m = .handled (g m) := by
    intro cs1 cs2 s g m hm h2
    subst hm
    have hof : Chain.ofList (cs1 ++ (m.shape, g) :: cs2) =
        cs2.foldl (fun c q => c.handle q.1 q.2) ((Chain.ofList cs1).handle m.shape g) := by
      simp [Chain.ofList, List.foldl_append]
    rw [hof, Chain.dispatch_foldl_skip cs2 m h2]
    simp [Chain.handle, Chain.dispatch]
  refine ⟨main, ?_⟩
  intro cs s f g m hm
  have h := main (cs ++ [(s, f)]) [] s g m hm (by simp)
  simpa using h

/-- C2 witness: two cases registered for `pin_verified`; the
later-registered handler (returning 2) wins over the earlier one. -/
theorem Chain.dispatch_tail_first_witness :
    Chain.dispatch (Chain.ofList [(Shape.pin_verified, fun _ => (1 : Nat)),
      (Shape.pin_verified, fun _ => (2 : Nat))]) Msg.pin_verified =
      DispatchResult.handled 2 := by
  have h := (@Chain.dispatch_tail_first Nat).2 [] Shape.pin_verified
    (fun _ => 1) (fun _ => 2) Msg.pin_verified rfl
  simpa using h

/-- C6: sending a value through a bound sender enqueues exactly that
value, and a receive turn whose tail registers the value's shape invokes
that handler with the very value sent (payload preserved field-wise by
the carrier, never misclassified by the shape probe), ending the turn. -/
theorem send_receive_roundtrip {α : Type} (v : Msg) (f : Msg → α)
    (cs : List (Shape × (Msg → α))) :
    sender.send true [] v = [v] ∧
    Chain.wait_and_dispatch (Chain.ofList (cs ++ [(v.shape, f)]))
      (sender.send true [] v) = .handled (f v) [] := by
  refine ⟨rfl, ?_⟩
  have hof : Chain.ofList (cs ++ [(v.shape, f)]) = (Chain.ofList cs).handle v.shape f := by
    simp [Chain.ofList, List.foldl_append]
  rw [show sender.send true [] v = [v] from rfl, hof]
  simp [Chain.wait_and_dispatch, Chain.handle, Chain.dispatch]

/-- A close message at the front of the queue ends the receive loop by
the base dispatcher's throw: no state's cases match it, so it falls to
the base policy. -/
theorem atm.receiveLoop_close (a : Atm) (sends : List Sent) (rest : List Msg) :
    atm.receiveLoop a sends (Msg.close_queue :: rest) = .closed rest sends := by
  simp [atm.receiveLoop, atm.cases_close_queue]

/-- C3: (1) the base dispatcher's `dispatch` raises `close_queue` on a
close message; (2) `atm::done` enqueues a close message on the ATM's own
queue; (3) in every receiving state, a delivered close message makes the
state function exit with the propagating `close_queue` throw; (4) the
throw is caught only by `run`'s top-level handler, which terminates the
loop. -/
theorem close_queue_shutdown :
    (Chain.dispatch (α := Unit) Chain.base Msg.close_queue = .closed) ∧
    (∀ q : List Msg, atm.done q = q ++ [Msg.close_queue]) ∧
    (∀ a : Atm, a.state_ ≠ AtmState.done_processing → ∀ rest : List Msg,
      atm.turn a (Msg.close_queue :: rest) = .closed rest (atm.entrySends a)) ∧
    (∀ (fuel : Nat) (a : Atm) (q q' : List Msg) (o out : List Sent),
      atm.turn a q = .closed q' o →
      atm.runAux (fuel + 1) a q out = .terminated (out ++ o) q') := by
  refine ⟨by decide, fun q => rfl, ?_, ?_⟩
  · intro a h rest
    cases hs : a.state_ <;> first
      | exact absurd hs h
      | simp [atm.turn, hs, atm.receiveLoop_close]
  · intro fuel a q q' o out h
    simp [atm.runAux, h]

/-- C3 witness: on the freshly started ATM, a queue holding only the
close message makes the first turn throw and `run` terminate after the
entry send of `waiting_for_card`. -/
theorem close_queue_shutdown_witness :
    atm.turn atm.init [Msg.close_queue] = .closed [] (atm.entrySends atm.init) ∧
    atm.runAux 1 atm.init [Msg.close_queue] [] =
      .terminated ([] ++ atm.entrySends atm.init) [] := by
  have h3 := close_queue_shutdown.2.2.1 atm.init (by decide) []
  exact ⟨h3, close_queue_shutdown.2.2.2 0 atm.init [Msg.close_queue] []
    (atm.entrySends atm.init) [] h3⟩

/-- C7: in `getting_pin`, a digit is appended to the PIN; exactly when
the PIN's length reaches 4 the ATM sends `verify_pin` to the bank and
moves to `verifying_pin`, otherwise it stays in `getting_pin`;
`clear_last_pressed` removes the last character when the PIN is
non-empty and is a no-op on an empty PIN, staying in `getting_pin`;
`cancel_pressed` moves to `done_processing`. -/
theorem atm.getting_pin_spec (a : Atm) (d : Char)
    (hst : a.state_ = AtmState.getting_pin) :
    ((a.pin_ ++ [d]).length = 4 →
      atm.getting_pin_cases a (.digit_pressed d) =
        some ({ a with pin_ := a.pin_ ++ [d], state_ := .verifying_pin },
          [⟨.bank, .verify_pin a.account_ (a.pin_ ++ [d])⟩])) ∧
    ((a.pin_ ++ [d]).length ≠ 4 →
      atm.getting_pin_cases a (.digit_pressed d) =
        some ({ a with pin_ := a.pin_ ++ [d] }, []) ∧
      ({ a with pin_ := a.pin_ ++ [d] } : Atm).state_ = AtmState.getting_pin) ∧
    (a.pin_ ≠ [] →
      atm.getting_pin_cases a .clear_last_pressed =
        some ({ a with pin_ := a.pin_.dropLast }, []) ∧
      ({ a with pin_ := a.pin_.dropLast } : Atm).state_ = AtmState.getting_pin) ∧
    (a.pin_ = [] →
      atm.getting_pin_cases a .clear_last_pressed = some (a, [])) ∧
    (atm.getting_pin_cases a .cancel_pressed =
      some ({ a with state_ := .done_processing }, [])) := by
  refine ⟨?_, ?_, ?_, ?_, rfl⟩
  · intro h4
    simp [atm.getting_pin_cases, h4]
  · intro h4
    exact ⟨by simp only [atm.getting_pin_cases]; rw [if_neg h4], hst⟩
  · intro hne
    exact ⟨by simp [atm.getting_pin_cases, hne], hst⟩
  · intro he
    simp [atm.getting_pin_cases, he]

/-- C7 witness: the 4th digit triggers `verify_pin` to the bank and the
move to `verifying_pin`. -/
theorem atm.getting_pin_spec_witness :
    atm.getting_pin_cases (Atm.mk .getting_pin "acc1234" 0 ['1', '2', '3'])
      (.digit_pressed '4') =
      some (Atm.mk .verifying_pin "acc1234" 0 ['1', '2', '3', '4'],
        [⟨.bank, .verify_pin "acc1234" ['1', '2', '3', '4']⟩]) := by
  have h := (atm.getting_pin_spec (Atm.mk .getting_pin "acc1234" 0 ['1', '2', '3'])
    '4' rfl).1 (by decide)
  exact h.trans (by decide)

/-- C8: `wait_for_action` remembers the withdrawal amount from
`withdraw_pressed` in `withdrawal_amount_`, and each `process_withdrawal`
case uses that remembered amount: `withdraw_ok` issues the money and
notifies the bank, `withdraw_denied` displays insufficient funds,
`cancel_pressed` cancels at the bank and displays the cancellation — all
moving to `done_processing`. -/
theorem atm.process_withdrawal_spec (a : Atm) (amt : Nat) :
    atm.wait_for_action_cases a (.withdraw_pressed amt) =
      some ({ a with withdrawal_amount_ := amt, state_ := .process_withdrawal },
        [⟨.bank, .withdraw a.account_ amt⟩]) ∧
    (∀ b : Atm, b.withdrawal_amount_ = amt →
      atm.process_withdrawal_cases b .withdraw_ok =
        some ({ b with state_ := .done_processing },
          [⟨.interface, .issue_money amt⟩,
           ⟨.bank, .withdrawal_processed b.account_ amt⟩]) ∧
      atm.process_withdrawal_cases b .withdraw_denied =
        some ({ b with state_ := .done_processing },
          [⟨.interface, .display_insufficient_funds⟩]) ∧
      atm.process_withdrawal_cases b .cancel_pressed =
        some ({ b with state_ := .done_processing },
          [⟨.bank, .cancel_withdrawal b.account_ amt⟩,
           ⟨.interface, .display_withdrawal_cancelled⟩])) := by
  refine ⟨rfl, ?_⟩
  intro b hb
  subst hb
  exact ⟨rfl, rfl, rfl⟩

/-- C8 witness: with the remembered amount 50, `withdraw_ok` issues 50
to the interface and reports the processed withdrawal to the bank. -/
theorem atm.process_withdrawal_spec_witness :
    atm.process_withdrawal_cases (Atm.mk .process_withdrawal "acc1234" 50 [])
      Msg.withdraw_ok =
      some (Atm.mk .done_processing "acc1234" 50 [],
        [⟨.interface, .issue_money 50⟩,
         ⟨.bank, .withdrawal_processed "acc1234" 50⟩]) := by
  have h := (atm.process_withdrawal_spec (Atm.mk .process_withdrawal "acc1234" 50 []) 50).2
    (Atm.mk .process_withdrawal "acc1234" 50 []) rfl
  exact h.1

/-- Strengthened PIN invariant for the induction: every reachable
configuration has a PIN of length at most 4, and strictly below 4 while
still in `getting_pin` (the digit handler leaves `getting_pin` exactly
when the length reaches 4). -/
theorem atm.reachable_pin_inv (a : Atm) (h : atm.Reachable a) :
    a.pin_.length ≤ 4 ∧ (a.state_ = AtmState.getting_pin → a.pin_.length < 4) := by
  induction h with
  | init => exact ⟨by simp [atm.init], by simp [atm.init]⟩
  | doneStep hreach hst ih =>
    exact ⟨ih.1, by simp⟩
  | handle hreach hcase ih =>
    rename_i a a' m out
    obtain ⟨ihlen, ihpin⟩ := ih
    cases hs : a.state_
    case waiting_for_card =>
      have hc : atm.waiting_for_card_cases a m = some (a', out) := by
        rw [← hcase]; simp [atm.cases, hs]
      cases m <;> simp [atm.waiting_for_card_cases] at hc
      obtain ⟨ha', -⟩ := hc
      subst ha'
      exact ⟨by simp, by simp⟩
    case getting_pin =>
      have hc : atm.getting_pin_cases a m = some (a', out) := by
        rw [← hcase]; simp [atm.cases, hs]
      have hlt : a.pin_.length < 4 := ihpin hs
      cases m <;> simp [atm.getting_pin_cases] at hc
      case digit_pressed d =>
        by_cases h4 : a.pin_.length = 3
        · rw [if_pos h4] at hc
          simp only [Option.some.injEq, Prod.mk.injEq] at hc
          obtain ⟨ha', -⟩ := hc
          subst ha'
          exact ⟨by simp [h4], by simp⟩
        · rw [if_neg h4] at hc
          simp only [Option.some.injEq, Prod.mk.injEq] at hc
          obtain ⟨ha', -⟩ := hc
          subst ha'
          simp only [List.length_append, List.length_cons, List.length_nil]
          exact ⟨by omega, fun _ => by omega⟩
      case clear_last_pressed =>
        by_cases hemp : a.pin_ = []
        · rw [if_pos hemp] at hc
          simp only [Option.some.injEq, Prod.mk.injEq] at hc
          obtain ⟨ha', -⟩ := hc
          subst ha'
          exact ⟨ihlen, fun _ => hlt⟩
        · rw [if_neg hemp] at hc
          simp only [Option.some.injEq, Prod.mk.injEq] at hc
          obtain ⟨ha', -⟩ := hc
          subst ha'
          have hd : a.pin_.dropLast.length = a.pin_.length - 1 := by
            simp [List.length_dropLast]
          exact ⟨by simp only [hd]; omega, fun _ => by simp only [hd]; omega⟩
      case cancel_pressed =>
        obtain ⟨ha', -⟩ := hc
        subst ha'
        exact ⟨ihlen, by simp⟩
    case verifying_pin =>
      have hc : atm.verifying_pin_cases a m = some (a', out) := by
        rw [← hcase]; simp [atm.cases, hs]
      cases m <;> simp [atm.verifying_pin_cases] at hc <;>
        (obtain ⟨ha', -⟩ := hc; subst ha'; exact ⟨ihlen, by simp⟩)
    case wait_for_action =>
      have hc : atm.wait_for_action_cases a m = some (a', out) := by
        rw [← hcase]; simp [atm.cases, hs]
      cases m <;> simp [atm.wait_for_action_cases] at hc <;>
        (obtain ⟨ha', -⟩ := hc; subst ha'; exact ⟨ihlen, by simp⟩)
    case process_withdrawal =>
      have hc : atm.process_withdrawal_cases a m = some (a', out) := by
        rw [← hcase]; simp [atm.cases, hs]
      cases m <;> simp [atm.process_withdrawal_cases] at hc <;>
        (obtain ⟨ha', -⟩ := hc; subst ha'; exact ⟨ihlen, by simp⟩)
    case process_balance =>
      have hc : atm.process_balance_cases a m = some (a', out) := by
        rw [← hcase]; simp [atm.cases, hs]
      cases m <;> simp [atm.process_balance_cases] at hc <;>
        (obtain ⟨ha', -⟩ := hc; subst ha'; exact ⟨ihlen, by simp⟩)
    case done_processing =>
      rw [show atm.cases a m = none by simp [atm.cases, hs]] at hcase
      cases hcase

/-- C9: in every configuration reachable from the initial one, the
accumulated PIN has length at most 4: `card_inserted` resets it, only the
`getting_pin` digit handler appends (one character, leaving the state
exactly at length 4), and no other handler grows it. -/
theorem atm.reachable_pin_length_le (a : Atm) (h : atm.Reachable a) :
    a.pin_.length ≤ 4 :=
  (atm.reachable_pin_inv a h).1

/-- C9 witness: the invariant holds at the initial configuration. -/
theorem atm.reachable_pin_length_le_witness : atm.init.pin_.length ≤ 4 :=
  atm.reachable_pin_length_le atm.init atm.Reachable.init

end Messaging
